import Mathlib

/-!
Shallow embedding of the evaluation engine of the EdTech web app
(`python_models/unified_service.py` with its older copies in
`python_models/smart_evaluator/evaluator.py` and
`python_models/mock_test/eval_engine.py`).

Answer texts are modelled as `List Char` (ASCII fragment of Python `str`),
marks and similarity scores as `ℚ`, embedding vectors for the cosine as
`List ℝ`.  The external embedding provider and the paper store are
parameters of the orchestrator: `Except`-valued functions whose `error`
case models a raised exception.
-/

/-! ### Python string primitives (ASCII fragment) -/

/-- Python `str.strip()` / `\s` whitespace on the ASCII fragment:
space, tab, newline, carriage return, vertical tab, form feed. -/
def isSpaceA (c : Char) : Bool :=
  c.toNat = 32 || c.toNat = 9 || c.toNat = 10 || c.toNat = 13 ||
  c.toNat = 11 || c.toNat = 12

/-- ASCII upper-case letter, as tested by Python `str.lower` / `str.isalpha`. -/
def isUpperA (c : Char) : Bool := 65 ≤ c.toNat && c.toNat ≤ 90

/-- ASCII lower-case letter. -/
def isLowerA (c : Char) : Bool := 97 ≤ c.toNat && c.toNat ≤ 122

/-- Python `str.isalpha()` on the ASCII fragment. -/
def isAlphaA (c : Char) : Bool := isUpperA c || isLowerA c

/-- Python `str.lower()` on one ASCII character. -/
def toLowerA (c : Char) : Char :=
  if isUpperA c then Char.ofNat (c.toNat + 32) else c

/-- Python `str.lower()`. -/
def pylower (s : List Char) : List Char := s.map toLowerA

/-- Python `str.strip()`: drop leading and trailing whitespace. -/
def pstrip (s : List Char) : List Char :=
  (s.dropWhile isSpaceA).rdropWhile isSpaceA

/-- Python `str.split()` (no separator): words between runs of whitespace,
auxiliary accumulator form. -/
def wordsAux : List Char → List Char → List (List Char)
  | [], cur => if cur.isEmpty then [] else [cur.reverse]
  | c :: rest, cur =>
    if isSpaceA c then
      if cur.isEmpty then wordsAux rest [] else cur.reverse :: wordsAux rest []
    else wordsAux rest (c :: cur)

/-- Python `str.split()` with no separator. -/
def words (s : List Char) : List (List Char) := wordsAux s []

/-! ### The answer normalizer (`extract_answer_letter`, unified_service.py 889-916) -/

/-- The separator characters `)`, `.`, `:` recognised after a choice letter. -/
def sepChar (c : Char) : Bool := c = ')' || c = '.' || c = ':'

/-- `extract_answer_letter` from `unified_service.py`: canonical choice letter
of an MCQ answer such as `"B) Text"`, falling back to the lowercased whole
string for non-MCQ answers.  The five branches mirror the Python source:
single alphabetic character; letter followed by `)`/`.`/`:`; the regex
`^([a-zA-Z])[\)\.\:\s]`; leading alphabetic character; whole string. -/
def extract_answer_letter (answer : List Char) : List Char :=
  if answer.isEmpty then []
  else
    let a := pstrip answer
    if a.length = 1 && isAlphaA (a.headD ' ') then pylower a
    else if 2 ≤ a.length && isAlphaA (a.headD ' ') && sepChar (a.getD 1 ' ') then
      [toLowerA (a.headD ' ')]
    else if 2 ≤ a.length && isAlphaA (a.headD ' ') &&
        (sepChar (a.getD 1 ' ') || isSpaceA (a.getD 1 ' ')) then
      [toLowerA (a.headD ' ')]
    else if !a.isEmpty && isAlphaA (a.headD ' ') then [toLowerA (a.headD ' ')]
    else pylower a

/-! ### Rounding

`round2`/`round3` model Python's `round(x, 2)` / `round(x, 3)`.  Python uses
round-half-to-even while Mathlib's `round` is round-half-up; they differ only
on exact ties, which none of the rubric constants or claim inputs produce. -/

def round2 (x : ℚ) : ℚ := (round (x * 100) : ℚ) / 100

def round3 (x : ℚ) : ℚ := (round (x * 1000) : ℚ) / 1000

/-! ### JSON values for `q_index` and Python `int()` coercion -/

/-- A JSON scalar as it may appear in an `answers[i].q_index` field. -/
inductive PyVal where
  | vint (n : Int)
  | vfloat (q : ℚ)
  | vstr (s : List Char)
  | vnone
deriving DecidableEq

/-- Truncation toward zero, as Python `int()` applied to a float. -/
def pytrunc (q : ℚ) : Int := if 0 ≤ q then ⌊q⌋ else ⌈q⌉

def isDigitA (c : Char) : Bool := 48 ≤ c.toNat && c.toNat ≤ 57

def digitsVal (ds : List Char) : ℕ :=
  ds.foldl (fun acc c => acc * 10 + (c.toNat - 48)) 0

/-- Python `int(s)` on a string: optional surrounding whitespace, optional
sign, then at least one decimal digit; anything else raises `ValueError`. -/
def parseIntStr (s : List Char) : Option Int :=
  let t := pstrip s
  match t with
  | '+' :: rest =>
    if !rest.isEmpty && rest.all isDigitA then some (digitsVal rest) else none
  | '-' :: rest =>
    if !rest.isEmpty && rest.all isDigitA then some (-(digitsVal rest : Int)) else none
  | _ => if !t.isEmpty && t.all isDigitA then some (digitsVal t) else none

/-- Python `int(v)`: `none` models a raised `ValueError`/`TypeError`. -/
def pyToInt : PyVal → Option Int
  | .vint n => some n
  | .vfloat q => some (pytrunc q)
  | .vstr s => parseIntStr s
  | .vnone => none

/-! ### Data model (§3 of the spec, JSON shapes of `evaluate_student`) -/

structure Question where
  qindex : Option Int
  question : Option (List Char)
  qtype : Option (List Char)
  marks : ℚ
  answer : Option (List Char)
  correct_answer : Option (List Char)
deriving DecidableEq

structure Paper where
  title : Option (List Char)
  total_marks : Option ℚ
  questions : List Question
deriving DecidableEq

structure SubmittedAnswer where
  q_index : Option PyVal
  student_answer : Option (List Char)
deriving DecidableEq

structure EvalRequest where
  student_id : Option (List Char)
  paper_id : Option (List Char)
  paper : Option Paper
  answers : List SubmittedAnswer

structure Detail where
  q_index : Int
  question : Option (List Char)
  dtype : Option (List Char)
  marks : ℚ
  student_answer : List Char
  correct_answer : List Char
  score_awarded : ℚ
  feedback : String
  similarity : Option ℚ
deriving DecidableEq

structure EvalRecord where
  student_id : List Char
  paper_id : Option (List Char)
  paper_title : List Char
  total_marks : ℚ
  total_score : ℚ
  percentage : ℚ
  details : List Detail
deriving DecidableEq

inductive EvalError where
  | notFound
  | dbError
  | noPaper
  | noQuestions
  | noAnswers
deriving DecidableEq

/-- HTTP status the route answers with for each error kind. -/
def httpCode : EvalError → ℕ
  | .notFound => 404
  | .dbError => 500
  | .noPaper => 400
  | .noQuestions => 400
  | .noAnswers => 400

/-! ### The answer map (unified_service.py 1095-1102) -/

def qidxVal (a : SubmittedAnswer) : PyVal := a.q_index.getD (.vint 0)

/-- Python dict assignment `m[k] = v`: overwrite in place or append. -/
def mapInsert (k : Int) (v : List Char) :
    List (Int × List Char) → List (Int × List Char)
  | [] => [(k, v)]
  | p :: rest => if p.1 = k then (k, v) :: rest else p :: mapInsert k v rest

/-- Python `m.get(k, "")`. -/
def mapGet : List (Int × List Char) → Int → List Char
  | [], _ => []
  | p :: rest, k => if p.1 = k then p.2 else mapGet rest k

/-- The `answer_map` loop: coerce `q_index` via `int()`, drop entries whose
coercion raises or is not positive, later entries overwrite earlier ones. -/
def buildAnswerMap (answers : List SubmittedAnswer) : List (Int × List Char) :=
  answers.foldl (fun m a =>
    match pyToInt (qidxVal a) with
    | some qi => if 0 < qi then mapInsert qi (a.student_answer.getD []) m else m
    | none => m) []

/-! ### Scoring policies -/

/-- `correct_ans = q.get("answer") or q.get("correct_answer") or ""`
(Python `or` takes the first truthy, i.e. non-empty, operand). -/
def orByTruthiness (a : Option (List Char)) (b : List Char) : List Char :=
  match a with
  | some s => if s.isEmpty then b else s
  | none => b

def correctAnsOf (q : Question) : List Char :=
  orByTruthiness q.answer (orByTruthiness q.correct_answer [])

/-- `q_type = str(q.get("type", "Short")).lower()`. -/
def qTypeLower (q : Question) : List Char := pylower (q.qtype.getD ("Short".toList))

/-- `q_type in ["mcq", "multiple", "choice"]`. -/
def isMCQfam (q : Question) : Prop :=
  qTypeLower q ∈ [("mcq".toList : List Char), "multiple".toList, "choice".toList]

instance (q : Question) : Decidable (isMCQfam q) := by
  unfold isMCQfam; infer_instance

/-- The MCQ branch of `evaluate_student` (unified_service.py 1126-1137):
whole-string comparison of the trimmed, lowercased answers.  The two arms of
the inner `len == 1` test are identical in the source. -/
def mcqScore (student_ans correct_ans : List Char) : ℚ × String :=
  if student_ans.isEmpty || correct_ans.isEmpty then (0, "Answer missing.")
  else
    let s := pylower (pstrip student_ans)
    let c := pylower (pstrip correct_ans)
    if s.length = 1 ∧ c.length = 1 then
      if s = c then (1, "Correct") else (0, "Incorrect")
    else
      if s = c then (1, "Correct") else (0, "Incorrect")

/-- The tiered subjective rubric (unified_service.py 1191-1202). -/
def subjectiveScore (sim : ℚ) (marks : ℚ) : ℚ × String :=
  if 0.85 ≤ sim then (marks, "Excellent")
  else if 0.7 ≤ sim then (round2 (marks * 0.6), "Partially correct")
  else if 0.55 ≤ sim then (round2 (marks * 0.3), "Attempted but insufficient")
  else (0, "Incorrect / off-topic")

/-- `len(student_words & correct_words)` for deduplicated token lists. -/
def interCount (sw cw : List (List Char)) : ℕ :=
  (sw.filter (fun t => t ∈ cw)).length

/-- The three tier labels of a token-overlap fallback evaluation. -/
structure FallbackLabels where
  high : String
  mid : String
  low : String
deriving DecidableEq

/-- Labels of the fallback inside the batch loop (embeddings came back null,
unified_service.py 1160-1186). -/
def aiLabels : FallbackLabels :=
  ⟨"Partially correct (evaluated without AI)",
   "Attempted (evaluated without AI)",
   "Insufficient (evaluated without AI)"⟩

/-- Labels of the fallback in the `except` handler (the batch call raised,
unified_service.py 1209-1235). -/
def excLabels : FallbackLabels :=
  ⟨"Partially correct (fallback evaluation)",
   "Attempted (fallback evaluation)",
   "Insufficient (fallback evaluation)"⟩

/-- Keyword-overlap fallback scoring of one subjective detail: token-set
overlap ratio against the reference tokens, thresholds 0.6 / 0.3, awards
0.7 / 0.4 / 0.1 of the marks. -/
def fallbackScoreWith (lbl : FallbackLabels) (d : Detail) : Detail :=
  let student_ans := pylower d.student_answer
  let correct_ans := pylower d.correct_answer
  if student_ans.isEmpty then
    { d with score_awarded := 0, feedback := "No answer provided" }
  else
    let student_words := (words student_ans).dedup
    let correct_words := (words correct_ans).dedup
    if 0 < correct_words.length then
      let overlap : ℚ := (interCount student_words correct_words : ℚ) / (correct_words.length : ℚ)
      if 0.6 ≤ overlap then
        { d with score_awarded := round2 (d.marks * 0.7), feedback := lbl.high }
      else if 0.3 ≤ overlap then
        { d with score_awarded := round2 (d.marks * 0.4), feedback := lbl.mid }
      else
        { d with score_awarded := round2 (d.marks * 0.1), feedback := lbl.low }
    else
      { d with score_awarded := 0, feedback := "Could not evaluate" }

def fallbackScoreAI : Detail → Detail := fallbackScoreWith aiLabels

def fallbackScoreExc : Detail → Detail := fallbackScoreWith excLabels

/-! ### The orchestrator (unified_service.py 1059-1266) -/

/-- Build the skeleton `EvaluationDetail` of one question (1108-1124). -/
def mkDetail (idx : Int) (q : Question) (student : List Char) : Detail :=
  { q_index := idx, question := q.question, dtype := q.qtype, marks := q.marks,
    student_answer := student, correct_answer := correctAnsOf q,
    score_awarded := 0, feedback := "", similarity := none }

/-- One iteration of the split loop: MCQ-family questions are scored
immediately, subjective ones keep the zero skeleton. -/
def scoreQuestion (idx : Int) (q : Question) (student : List Char) : Detail :=
  let d := mkDetail idx q student
  if isMCQfam q then
    let p := mcqScore student (correctAnsOf q)
    { d with score_awarded := p.1 * q.marks, feedback := p.2 }
  else d

/-- `for idx, q in enumerate(questions, start=1)`: the details list. -/
def splitDetailsAux (amap : List (Int × List Char)) : Int → List Question → List Detail
  | _, [] => []
  | idx, q :: rest =>
    scoreQuestion idx q (mapGet amap idx) :: splitDetailsAux amap (idx + 1) rest

def splitDetails (amap : List (Int × List Char)) (qs : List Question) : List Detail :=
  splitDetailsAux amap 1 qs

/-- `subj_q_indices`: 1-based positions of the non-MCQ questions, in order. -/
def subjIndicesAux : Int → List Question → List Int
  | _, [] => []
  | idx, q :: rest =>
    if isMCQfam q then subjIndicesAux (idx + 1) rest
    else idx :: subjIndicesAux (idx + 1) rest

def subjIndices (qs : List Question) : List Int := subjIndicesAux 1 qs

/-- `subj_texts`: interleaved `[student_1, reference_1, student_2, ...]`. -/
def subjTextsAux (amap : List (Int × List Char)) : Int → List Question → List (List Char)
  | _, [] => []
  | idx, q :: rest =>
    if isMCQfam q then subjTextsAux amap (idx + 1) rest
    else mapGet amap idx :: correctAnsOf q :: subjTextsAux amap (idx + 1) rest

def subjTexts (amap : List (Int × List Char)) (qs : List Question) : List (List Char) :=
  subjTextsAux amap 1 qs

/-- `next((d for d in details if d["q_index"] == q_idx), None)` followed by a
mutation of the found detail; no-op when no detail matches. -/
def updateFirst : List Detail → Int → (Detail → Detail) → List Detail
  | [], _, _ => []
  | d :: rest, k, f =>
    if d.q_index = k then f d :: rest else d :: updateFirst rest k f

/-- Score one subjective pair from its two embeddings (1152-1205): if either
embedding is null fall back to keyword overlap, otherwise apply the rubric to
the cosine similarity and record the rounded similarity. -/
def scoreOnePair {Vec : Type} (simf : Vec → Vec → ℚ) (se ce : Option Vec) (d : Detail) : Detail :=
  match se, ce with
  | some sv, some cv =>
    let sim := simf sv cv
    let p := subjectiveScore sim d.marks
    { d with similarity := some (round3 sim), score_awarded := p.1, feedback := p.2 }
  | _, _ => fallbackScoreAI d

/-- `for i, q_idx in enumerate(subj_q_indices)`: each pair reads embeddings
`2*i` and `2*i+1`, guarded to `None` when past the end of the list. -/
def scorePairsAux {Vec : Type} (simf : Vec → Vec → ℚ) (embeddings : List (Option Vec)) :
    ℕ → List Int → List Detail → List Detail
  | _, [], ds => ds
  | i, qi :: rest, ds =>
    let se := embeddings.getD (2 * i) none
    let ce := embeddings.getD (2 * i + 1) none
    scorePairsAux simf embeddings (i + 1) rest (updateFirst ds qi (scoreOnePair simf se ce))

/-- `paper_id` is used only when truthy (non-empty string). -/
def pyTruthyId : Option (List Char) → Bool
  | some s => !s.isEmpty
  | none => false

/-- Paper resolution (1062-1083): inline paper wins; else fetch by id when a
collection is available — a raised fetch is a 500, a missing paper a 404 —
else a 400. -/
def resolvePaper (store : Option (List Char → Except Unit (Option Paper)))
    (req : EvalRequest) : Except EvalError Paper :=
  match req.paper with
  | some p => .ok p
  | none =>
    match store, req.paper_id with
    | some fetch, some pid =>
      if pid.isEmpty then .error .noPaper
      else
        match fetch pid with
        | .error _ => .error .dbError
        | .ok none => .error .notFound
        | .ok (some p) => .ok p
    | _, _ => .error .noPaper

/-- The scoring phase (1104-1235): split, then batch-score the subjective
queue — on a successful call walk the interleaved embeddings, on a raised
call fall back to keyword overlap for every queued subjective question. -/
def scoreDetails {Vec : Type} (simf : Vec → Vec → ℚ)
    (embedCall : ℕ → List (List Char) → Except Unit (List (Option Vec)))
    (amap : List (Int × List Char)) (questions : List Question) : List Detail :=
  let details0 := splitDetails amap questions
  let sIdx := subjIndices questions
  let sTexts := subjTexts amap questions
  if sTexts.isEmpty then details0
  else
    let batch_timeout := min 50 (20 + sTexts.length * 2)
    match embedCall batch_timeout sTexts with
    | .ok embeddings => scorePairsAux simf embeddings 0 sIdx details0
    | .error _ => sIdx.foldl (fun ds qi => updateFirst ds qi fallbackScoreExc) details0

/-- Aggregation and materialization (1237-1252): totals, percentage and the
evaluation document. -/
def buildRecord (req : EvalRequest) (paper : Paper) (details : List Detail) : EvalRecord :=
  let total_marks := paper.total_marks.getD ((paper.questions.map Question.marks).sum)
  let total_score := (details.map Detail.score_awarded).sum
  { student_id := req.student_id.getD ("ANON".toList),
    paper_id := req.paper_id,
    paper_title := paper.title.getD ("Untitled".toList),
    total_marks := total_marks,
    total_score := total_score,
    percentage := if total_marks ≠ 0 then round2 (total_score / total_marks * 100) else 0,
    details := details }

/-- The `/api/evaluate_student` orchestrator (unified_service.py 1059-1266).
`simf` abstracts `cosine_similarity` on the provider's vectors; `embedCall`
abstracts the call `get_embeddings_batch(subj_texts, timeout)`, its `error`
case modelling an exception raised by the batch call (caught at 1206).
Persistence (1254-1264) never alters the response and is not modelled. -/
def evaluate_student {Vec : Type} (simf : Vec → Vec → ℚ)
    (store : Option (List Char → Except Unit (Option Paper)))
    (embedCall : ℕ → List (List Char) → Except Unit (List (Option Vec)))
    (req : EvalRequest) : Except EvalError EvalRecord :=
  match resolvePaper store req with
  | .error e => .error e
  | .ok paper =>
    if paper.questions.isEmpty then .error .noQuestions
    else if req.answers.isEmpty then .error .noAnswers
    else .ok (buildRecord req paper
      (scoreDetails simf embedCall (buildAnswerMap req.answers) paper.questions))

/-! ### `get_embeddings_batch` (unified_service.py 397-413) -/

/-- `get_embeddings_batch`: one provider call; on any exception return
`None` for every input text.  A successful provider response is returned
as-is (mapped into the option type), with no length check against `texts`. -/
def get_embeddings_batch {Vec : Type} (provider : List (List Char) → Except Unit (List Vec))
    (texts : List (List Char)) : List (Option Vec) :=
  match provider texts with
  | .ok data => data.map some
  | .error _ => List.replicate texts.length none

/-! ### `cosine_similarity` (unified_service.py 389-395) -/

/-- `np.dot` of two vectors (over the common length, as for equal-length
embedding vectors). -/
def dotList (a b : List ℝ) : ℝ := ((a.zip b).map (fun p => p.1 * p.2)).sum

/-- `np.linalg.norm`. -/
noncomputable def normList (a : List ℝ) : ℝ := Real.sqrt (dotList a a)

/-- `cosine_similarity` with its zero-denominator guard. -/
noncomputable def cosine_similarity (a b : List ℝ) : ℝ :=
  if normList a * normList b = 0 then 0 else dotList a b / (normList a * normList b)

/-! ### Claim-side definitions -/

/-- Modelled from the (amended) claim C10: the valid `(q_index, answer)`
pairs after Python `int()` coercion, in submission order. -/
def validPairs (answers : List SubmittedAnswer) : List (Int × List Char) :=
  answers.filterMap (fun a =>
    match pyToInt (qidxVal a) with
    | some qi => if 0 < qi then some (qi, a.student_answer.getD []) else none
    | none => none)

/-- Modelled from the (amended) claim C10: the answer text for 1-based
position `k` — the last submitted answer whose coerced index is `k`, empty
when there is none. -/
def lookupAnswerSpec (answers : List SubmittedAnswer) (k : Int) : List Char :=
  match (validPairs answers).reverse.find? (fun p => p.1 == k) with
  | some p => p.2
  | none => []

/-- Projection used by concrete-run theorems: the details of a successful
evaluation. -/
def okDetails : Except EvalError EvalRecord → Option (List Detail)
  | .ok r => some r.details
  | .error _ => none

/-- Default values used with `List.getD` in positional statements. -/
def dfltQuestion : Question :=
  { qindex := none, question := none, qtype := none, marks := 0,
    answer := none, correct_answer := none }

def dfltDetail : Detail := mkDetail 0 dfltQuestion []

/-- Overwrite the (ignored) `index` field stored inside a question object. -/
def setQidx (v : Option Int) (q : Question) : Question :=
  { q with qindex := v }

/-! ### Concrete scenario inputs used by witnesses and counterexamples -/

def simZero : Unit → Unit → ℚ := fun _ _ => 0

/-- An embedding call that succeeds but embeds nothing (all-null entries). -/
def embedAllNull : ℕ → List (List Char) → Except Unit (List (Option Unit)) :=
  fun _ ts => .ok (List.replicate ts.length none)

/-- An embedding batch call that raises. -/
def embedRaise : ℕ → List (List Char) → Except Unit (List (Option Unit)) :=
  fun _ _ => .error ()

/-- Scenario A (§8): one MCQ worth 1 mark with reference answer "A". -/
def qScenA : Question :=
  { qindex := none, question := none, qtype := some ("MCQ".toList), marks := 1,
    answer := some ("A".toList), correct_answer := none }

def reqScenA : EvalRequest :=
  { student_id := none, paper_id := none,
    paper := some { title := none, total_marks := none, questions := [qScenA] },
    answers := [{ q_index := some (.vint 1), student_answer := some ("a) option text".toList) }] }

/-- Scenario D (§8): one subjective question worth 10 marks. -/
def qScenD : Question :=
  { qindex := none, question := none, qtype := some ("Long".toList), marks := 10,
    answer := some ("deadlock occurs when processes wait circularly".toList),
    correct_answer := none }

def pScenD : Paper := { title := none, total_marks := none, questions := [qScenD] }

def reqScenD : EvalRequest :=
  { student_id := none, paper_id := none, paper := some pScenD,
    answers := [{ q_index := some (.vint 1),
                  student_answer := some ("deadlock circular wait".toList) }] }

/-- A correct one-MCQ submission for the totals witness. -/
def qW : Question :=
  { qindex := none, question := none, qtype := some ("mcq".toList), marks := 1,
    answer := some ("a".toList), correct_answer := none }

def pW : Paper := { title := none, total_marks := none, questions := [qW] }

def reqW : EvalRequest :=
  { student_id := none, paper_id := none, paper := some pW,
    answers := [{ q_index := some (.vint 1), student_answer := some ("a".toList) }] }

def dW : Detail :=
  { q_index := 1, question := none, dtype := some ("mcq".toList), marks := 1,
    student_answer := "a".toList, correct_answer := "a".toList,
    score_awarded := 1, feedback := "Correct", similarity := none }

def rW : EvalRecord :=
  { student_id := "ANON".toList, paper_id := none, paper_title := "Untitled".toList,
    total_marks := 1, total_score := 1, percentage := 100, details := [dW] }

/-- Two MCQs and one submitted answer whose `q_index` is the float 2.5. -/
def qM2 : Question :=
  { qindex := none, question := none, qtype := some ("mcq".toList), marks := 1,
    answer := some ("b".toList), correct_answer := none }

def reqFloatIdx : EvalRequest :=
  { student_id := none, paper_id := none,
    paper := some { title := none, total_marks := none, questions := [qW, qM2] },
    answers := [{ q_index := some (.vfloat (5 / 2)), student_answer := some ("b".toList) }] }

/-! ### Generic lemmas about the embedded primitives -/

theorem dotList_nil_left (b : List ℝ) : dotList [] b = 0 := by
  simp [dotList]

theorem dotList_nil_right (a : List ℝ) : dotList a [] = 0 := by
  cases a <;> simp [dotList]

theorem dotList_cons (x y : ℝ) (xs ys : List ℝ) :
    dotList (x :: xs) (y :: ys) = x * y + dotList xs ys := by
  simp [dotList]

theorem dotList_self_nonneg (a : List ℝ) : 0 ≤ dotList a a := by
  induction a with
  | nil => simp [dotList]
  | cons x xs ih =>
    rw [dotList_cons]
    have := mul_self_nonneg x
    linarith

theorem dotList_sq_le (a : List ℝ) : ∀ b : List ℝ,
    (dotList a b) ^ 2 ≤ dotList a a * dotList b b := by
  induction a with
  | nil => intro b; simp [dotList_nil_left]
  | cons x xs ih =>
    intro b
    cases b with
    | nil =>
      simp [dotList_nil_right]
    | cons y ys =>
      have hIH := ih ys
      have hA := dotList_self_nonneg xs
      have hB := dotList_self_nonneg ys
      rw [dotList_cons, dotList_cons, dotList_cons]
      rcases eq_or_lt_of_le hB with hB0 | hBpos
      · have hD : dotList xs ys ^ 2 = 0 := by nlinarith
        have hD0 : dotList xs ys = 0 := by
          exact pow_eq_zero_iff (two_ne_zero).symm.symm |>.mp hD
        rw [← hB0, hD0]
        nlinarith [mul_nonneg hA (sq_nonneg y)]
      · nlinarith [sq_nonneg (x * dotList ys ys - y * dotList xs ys),
          mul_nonneg (sq_nonneg y) (sub_nonneg.mpr hIH),
          mul_nonneg hBpos.le (sub_nonneg.mpr hIH), hA]

theorem abs_dotList_le (a b : List ℝ) : |dotList a b| ≤ normList a * normList b := by
  have h := dotList_sq_le a b
  have ha := dotList_self_nonneg a
  have hb := dotList_self_nonneg b
  have : |dotList a b| = Real.sqrt ((dotList a b) ^ 2) := (Real.sqrt_sq_eq_abs _).symm
  rw [this, normList, normList, ← Real.sqrt_mul ha]
  exact Real.sqrt_le_sqrt h

/-- C7: `cosine_similarity` always returns a value in `[-1, 1]`, and returns
`0.0` whenever either vector has zero magnitude (the zero-denominator guard),
so it never divides by zero. -/
theorem C7_cosine_bounds (a b : List ℝ) :
    (-1 ≤ cosine_similarity a b ∧ cosine_similarity a b ≤ 1) ∧
    (normList a = 0 ∨ normList b = 0 → cosine_similarity a b = 0) := by
  unfold cosine_similarity
  by_cases h : normList a * normList b = 0
  · simp [h]
  · have habs : |dotList a b| ≤ normList a * normList b := abs_dotList_le a b
    have hnn : 0 ≤ normList a * normList b :=
      mul_nonneg (Real.sqrt_nonneg _) (Real.sqrt_nonneg _)
    have hpos : 0 < normList a * normList b := lt_of_le_of_ne hnn (Ne.symm h)
    constructor
    · rw [if_neg h]
      have hd : |dotList a b / (normList a * normList b)| ≤ 1 := by
        rw [abs_div, abs_of_pos hpos]
        exact (div_le_one hpos).mpr habs
      exact abs_le.mp hd
    · intro hz
      exfalso
      rcases hz with hz | hz <;> rw [hz] at h <;> simp at h
  
/-- C7 witness: the zero vector against `[1]` hits the guard and returns 0,
within the bounds. -/
theorem C7_cosine_bounds_witness :
    cosine_similarity [(0 : ℝ)] [1] = 0 ∧
    (-1 ≤ cosine_similarity [(0 : ℝ)] [1] ∧ cosine_similarity [(0 : ℝ)] [1] ≤ 1) := by
  have hz : normList [(0 : ℝ)] = 0 := by
    simp [normList, dotList]
  exact ⟨(C7_cosine_bounds [(0 : ℝ)] [1]).2 (Or.inl hz), (C7_cosine_bounds [(0 : ℝ)] [1]).1⟩

/-- C5 counterexample: a well-formed provider response shorter than the input
(one embedding for two texts) is returned as-is — the result has length 1,
not the same length 2 as the input, and is not the all-null list either. -/
theorem C5_short_response_counterexample :
    (get_embeddings_batch (fun _ => .ok [()] : List (List Char) → Except Unit (List Unit))
        ["ab".toList, "cd".toList]).length = 1 ∧
    (["ab".toList, "cd".toList] : List (List Char)).length = 2 ∧
    get_embeddings_batch (fun _ => .ok [()] : List (List Char) → Except Unit (List Unit))
        ["ab".toList, "cd".toList] ≠ List.replicate 2 (none : Option Unit) := by
  decide

/-- C5 (amended): `get_embeddings_batch` never raises; on an exception from
the provider (timeout included) it returns a same-length list of nulls; on a
successful response it returns exactly the provider's embeddings in order
(each wrapped as non-null), with no length check against the input. -/
theorem C5_embed_batch_amended (Vec : Type)
    (provider : List (List Char) → Except Unit (List Vec)) (texts : List (List Char)) :
    (∀ e, provider texts = .error e →
      get_embeddings_batch provider texts = List.replicate texts.length none) ∧
    (∀ data, provider texts = .ok data →
      get_embeddings_batch provider texts = data.map some) := by
  constructor
  · intro e he
    unfold get_embeddings_batch
    rw [he]
  · intro data hd
    unfold get_embeddings_batch
    rw [hd]

/-- C5 witness: both branches of the amended contract at concrete inputs. -/
theorem C5_embed_batch_amended_witness :
    get_embeddings_batch (fun _ => .error () : List (List Char) → Except Unit (List Unit))
      ["ab".toList, "cd".toList] = [none, none] ∧
    get_embeddings_batch (fun _ => .ok [(), ()] : List (List Char) → Except Unit (List Unit))
      ["ab".toList, "cd".toList] = [some (), some ()] := by
  constructor
  · exact ((C5_embed_batch_amended Unit _ _).1 () rfl).trans (by decide)
  · exact ((C5_embed_batch_amended Unit _ _).2 [(), ()] rfl).trans (by decide)

/-- C2: the tiered subjective rubric, with both boundaries of each band:
`s ≥ 0.85` awards the full marks with "Excellent"; `0.70 ≤ s < 0.85` awards
`round(0.6*m, 2)` with "Partially correct"; `0.55 ≤ s < 0.70` awards
`round(0.3*m, 2)` with "Attempted but insufficient"; `s < 0.55` awards 0. -/
theorem C2_subjective_rubric (s m : ℚ) :
    (0.85 ≤ s → subjectiveScore s m = (m, "Excellent")) ∧
    (0.7 ≤ s ∧ s < 0.85 → subjectiveScore s m = (round2 (0.6 * m), "Partially correct")) ∧
    (0.55 ≤ s ∧ s < 0.7 → subjectiveScore s m = (round2 (0.3 * m), "Attempted but insufficient")) ∧
    (s < 0.55 → subjectiveScore s m = (0, "Incorrect / off-topic")) := by
  unfold subjectiveScore
  refine ⟨fun h => ?_, fun h => ?_, fun h => ?_, fun h => ?_⟩
  · rw [if_pos h]
  · rw [if_neg (by linarith), if_pos h.1, mul_comm]
  · rw [if_neg (by linarith), if_neg (by linarith), if_pos h.1, mul_comm]
  · rw [if_neg (by linarith), if_neg (by linarith), if_neg (by linarith)]

/-- C2 witness: the rubric evaluated at the documented boundaries with
`m = 10` (0.85 exactly, 0.72, 0.55 exactly, 0.54). -/
theorem C2_subjective_rubric_witness :
    subjectiveScore 0.85 10 = (10, "Excellent") ∧
    subjectiveScore 0.72 10 = (6, "Partially correct") ∧
    subjectiveScore 0.55 10 = (3, "Attempted but insufficient") ∧
    subjectiveScore 0.54 10 = (0, "Incorrect / off-topic") := by
  have h6 : round2 (0.6 * 10) = (6 : ℚ) := by
    have : (0.6 : ℚ) * 10 * 100 = 600 := by norm_num
    rw [round2, this]
    norm_num
  have h3 : round2 (0.3 * 10) = (3 : ℚ) := by
    have : (0.3 : ℚ) * 10 * 100 = 300 := by norm_num
    rw [round2, this]
    norm_num
  refine ⟨(C2_subjective_rubric 0.85 10).1 (by norm_num), ?_, ?_,
    (C2_subjective_rubric 0.54 10).2.2.2 (by norm_num)⟩
  · rw [(C2_subjective_rubric 0.72 10).2.1 ⟨by norm_num, by norm_num⟩, h6]
  · rw [(C2_subjective_rubric 0.55 10).2.2.1 ⟨by norm_num, by norm_num⟩, h3]

theorem char_eq_of_toNat_eq {a b : Char} (h : a.toNat = b.toNat) : a = b :=
  Char.eq_of_val_eq (UInt32.toNat.inj h)

theorem toNat_ofNat_small {n : ℕ} (h : n < 55296) : (Char.ofNat n).toNat = n := by
  have hv : n.isValidChar := Or.inl h
  rw [Char.ofNat, dif_pos hv]
  rfl

theorem isUpperA_toNat {c : Char} (h : isUpperA c = true) : 65 ≤ c.toNat ∧ c.toNat ≤ 90 := by
  unfold isUpperA at h
  simp at h
  exact h

theorem toLowerA_toNat_of_upper {c : Char} (h : isUpperA c = true) :
    (toLowerA c).toNat = c.toNat + 32 := by
  unfold toLowerA
  rw [if_pos h]
  exact toNat_ofNat_small (by have := isUpperA_toNat h; omega)

theorem toLowerA_of_not_upper {c : Char} (h : isUpperA c = false) : toLowerA c = c := by
  unfold toLowerA
  rw [if_neg (by simp [h])]

theorem isUpperA_toLowerA (c : Char) : isUpperA (toLowerA c) = false := by
  cases hu : isUpperA c with
  | false => rw [toLowerA_of_not_upper hu, hu]
  | true =>
    have h1 := toLowerA_toNat_of_upper hu
    have h2 := isUpperA_toNat hu
    unfold isUpperA
    simp [h1]
    omega

theorem toLowerA_idem (c : Char) : toLowerA (toLowerA c) = toLowerA c :=
  toLowerA_of_not_upper (isUpperA_toLowerA c)

theorem isLowerA_toLowerA_of_upper {c : Char} (h : isUpperA c = true) :
    isLowerA (toLowerA c) = true := by
  have h1 := toLowerA_toNat_of_upper h
  have h2 := isUpperA_toNat h
  unfold isLowerA
  simp [h1]
  omega

theorem isAlphaA_toLowerA (c : Char) : isAlphaA (toLowerA c) = isAlphaA c := by
  cases hu : isUpperA c with
  | false => rw [toLowerA_of_not_upper hu]
  | true =>
    unfold isAlphaA
    rw [isUpperA_toLowerA, isLowerA_toLowerA_of_upper hu, hu]
    rfl

theorem isSpaceA_of_upper {c : Char} (h : isUpperA c = true) : isSpaceA c = false := by
  have h2 := isUpperA_toNat h
  unfold isSpaceA
  simp
  omega

theorem isSpaceA_toLowerA (c : Char) : isSpaceA (toLowerA c) = isSpaceA c := by
  cases hu : isUpperA c with
  | false => rw [toLowerA_of_not_upper hu]
  | true =>
    have h1 := toLowerA_toNat_of_upper hu
    have h2 := isUpperA_toNat hu
    have hL : isSpaceA (toLowerA c) = false := by
      unfold isSpaceA
      simp [h1]
      omega
    rw [hL, isSpaceA_of_upper hu]

theorem isSpaceA_of_alpha {c : Char} (h : isAlphaA c = true) : isSpaceA c = false := by
  unfold isAlphaA isUpperA isLowerA at h
  unfold isSpaceA
  simp at h
  simp
  omega

theorem pstrip_head_not_space (s : List Char) (w : pstrip s ≠ []) :
    isSpaceA ((pstrip s).head w) = false := by
  have hpre : pstrip s <+: s.dropWhile isSpaceA := List.rdropWhile_prefix _ _
  rw [List.IsPrefix.head hpre w]
  exact List.head_dropWhile_not isSpaceA s _

theorem pstrip_getLast_not_space (s : List Char) (w : pstrip s ≠ []) :
    isSpaceA ((pstrip s).getLast w) = false := by
  have := List.rdropWhile_last_not isSpaceA (s.dropWhile isSpaceA) w
  unfold pstrip
  simpa using this

theorem pstrip_eq_self {s : List Char}
    (h1 : ∀ w : s ≠ [], isSpaceA (s.head w) = false)
    (h2 : ∀ w : s ≠ [], isSpaceA (s.getLast w) = false) : pstrip s = s := by
  cases hs : s with
  | nil => rfl
  | cons c rest =>
    subst hs
    have hc : isSpaceA c = false := by simpa using h1 (by simp)
    have hd : (c :: rest).dropWhile isSpaceA = c :: rest := by
      rw [List.dropWhile_cons_of_neg (by simp [hc])]
    unfold pstrip
    rw [hd]
    exact List.rdropWhile_eq_self_iff.mpr (fun hl => by simp [h2 hl])

theorem pstrip_idem (s : List Char) : pstrip (pstrip s) = pstrip s :=
  pstrip_eq_self (pstrip_head_not_space s) (pstrip_getLast_not_space s)

theorem pylower_pylower (t : List Char) : pylower (pylower t) = pylower t := by
  unfold pylower
  rw [List.map_map]
  simp [Function.comp_def, toLowerA_idem]

theorem not_upper_of_not_alpha {c : Char} (h : isAlphaA c = false) : isUpperA c = false := by
  unfold isAlphaA at h
  simp at h
  exact h.1

theorem pstrip_single_of_not_space {c : Char} (h : isSpaceA c = false) : pstrip [c] = [c] :=
  pstrip_eq_self (fun _ => by simpa using h) (fun _ => by simpa using h)

theorem extract_single_alpha {c : Char} (hA : isAlphaA c = true) (hU : isUpperA c = false) :
    extract_answer_letter [c] = [c] := by
  simp [extract_answer_letter, pstrip_single_of_not_space (isSpaceA_of_alpha hA), hA,
    toLowerA_of_not_upper hU, pylower]

theorem extract_single_nonalpha {c : Char} (hA : isAlphaA c = false) (hS : isSpaceA c = false) :
    extract_answer_letter [c] = [c] := by
  simp [extract_answer_letter, pstrip_single_of_not_space hS, hA, pylower,
    toLowerA_of_not_upper (not_upper_of_not_alpha hA)]

theorem pstrip_head?_not_space (s : List Char) (c : Char)
    (h : (pstrip s).head? = some c) : isSpaceA c = false := by
  have hne : pstrip s ≠ [] := by
    intro h0
    rw [h0] at h
    simp at h
  have h2 := pstrip_head_not_space s hne
  have h3 : (pstrip s).head hne = c := by
    rw [List.head?_eq_head hne] at h
    exact Option.some.inj h
  rwa [h3] at h2

theorem pstrip_getLast?_not_space (s : List Char) (c : Char)
    (h : (pstrip s).getLast? = some c) : isSpaceA c = false := by
  have hne : pstrip s ≠ [] := by
    intro h0
    rw [h0] at h
    simp at h
  have h2 := pstrip_getLast_not_space s hne
  have h3 : (pstrip s).getLast hne = c := by
    rw [List.getLast?_eq_getLast _ hne] at h
    exact Option.some.inj h
  rwa [h3] at h2

theorem extract_lower_stripped {t : List Char} (hs : pstrip t = t) (hl : 2 ≤ t.length)
    (hA : isAlphaA (t.headD ' ') = false) :
    extract_answer_letter (pylower t) = pylower t := by
  cases t with
  | nil => simp at hl
  | cons c rest =>
    cases rest with
    | nil => simp at hl
    | cons c2 rest2 =>
      have hAc : isAlphaA c = false := by simpa using hA
      have hSc : isSpaceA c = false := by
        apply pstrip_head?_not_space (c :: c2 :: rest2) c
        rw [hs]
        rfl
      have hSgl : isSpaceA ((c :: c2 :: rest2).getLast (by simp)) = false := by
        apply pstrip_getLast?_not_space (c :: c2 :: rest2)
        rw [hs]
        exact List.getLast?_eq_getLast _ (by simp)
      have key : pstrip (pylower (c :: c2 :: rest2)) = pylower (c :: c2 :: rest2) := by
        apply pstrip_eq_self
        · intro w
          simp [pylower, isSpaceA_toLowerA, hSc]
        · intro w
          unfold pylower
          rw [List.getLast_map]
          rw [isSpaceA_toLowerA]
          exact hSgl
      simp only [extract_answer_letter, key]
      simp [pylower_pylower, pylower, isAlphaA_toLowerA, hAc, toLowerA_idem]

theorem extract_cases (s : List Char) :
    extract_answer_letter s = [] ∨
    (∃ c, isAlphaA c = true ∧ isUpperA c = false ∧ extract_answer_letter s = [c]) ∨
    (∃ c, isAlphaA c = false ∧ isSpaceA c = false ∧ extract_answer_letter s = [c]) ∨
    (∃ t, pstrip t = t ∧ 2 ≤ t.length ∧ isAlphaA (t.headD ' ') = false ∧
      extract_answer_letter s = pylower t) := by
  by_cases h0 : s.isEmpty = true
  · left
    unfold extract_answer_letter
    rw [if_pos h0]
  · have hbody : extract_answer_letter s =
        (if (pstrip s).length = 1 && isAlphaA ((pstrip s).headD ' ') then pylower (pstrip s)
         else if 2 ≤ (pstrip s).length && isAlphaA ((pstrip s).headD ' ') &&
             sepChar ((pstrip s).getD 1 ' ') then
           [toLowerA ((pstrip s).headD ' ')]
         else if 2 ≤ (pstrip s).length && isAlphaA ((pstrip s).headD ' ') &&
             (sepChar ((pstrip s).getD 1 ' ') || isSpaceA ((pstrip s).getD 1 ' ')) then
           [toLowerA ((pstrip s).headD ' ')]
         else if !(pstrip s).isEmpty && isAlphaA ((pstrip s).headD ' ') then
           [toLowerA ((pstrip s).headD ' ')]
         else pylower (pstrip s)) := by
      unfold extract_answer_letter
      rw [if_neg h0]
    rw [hbody]
    rcases hps : pstrip s with _ | ⟨c, rest⟩
    · left
      simp [pylower]
    · rcases rest with _ | ⟨c2, rest2⟩
      · by_cases hAc : isAlphaA c = true
        · right; left
          refine ⟨toLowerA c, by rw [isAlphaA_toLowerA]; exact hAc, isUpperA_toLowerA c, ?_⟩
          simp [hAc, pylower]
        · right; right; left
          have hAc' : isAlphaA c = false := by simpa using hAc
          have hSc : isSpaceA c = false := by
            apply pstrip_head?_not_space s c
            rw [hps]
            rfl
          refine ⟨c, hAc', hSc, ?_⟩
          simp [hAc', pylower, toLowerA_of_not_upper (not_upper_of_not_alpha hAc')]
      · by_cases hAc : isAlphaA c = true
        · right; left
          refine ⟨toLowerA c, by rw [isAlphaA_toLowerA]; exact hAc, isUpperA_toLowerA c, ?_⟩
          simp [hAc]
        · right; right; right
          have hAc' : isAlphaA c = false := by simpa using hAc
          refine ⟨c :: c2 :: rest2, ?_, by simp, by simpa using hAc', ?_⟩
          · rw [← hps]
            exact pstrip_idem s
          · simp [hAc']

/-- C9: the answer normalizer `extract_answer_letter` is idempotent:
normalizing an already-normalized answer returns it unchanged. -/
theorem C9_normalizer_idempotent (s : List Char) :
    extract_answer_letter (extract_answer_letter s) = extract_answer_letter s := by
  rcases extract_cases s with h | ⟨c, hA, hU, h⟩ | ⟨c, hA, hS, h⟩ | ⟨t, hs, hl, hA, h⟩
  · rw [h]
    rfl
  · rw [h, extract_single_alpha hA hU]
  · rw [h, extract_single_nonalpha hA hS]
  · rw [h, extract_lower_stripped hs hl hA]

theorem evaluate_student_ok {Vec : Type} (simf : Vec → Vec → ℚ)
    (store : Option (List Char → Except Unit (Option Paper)))
    (embedCall : ℕ → List (List Char) → Except Unit (List (Option Vec)))
    (req : EvalRequest) (p : Paper)
    (hres : resolvePaper store req = .ok p) (hq : p.questions ≠ []) (ha : req.answers ≠ []) :
    evaluate_student simf store embedCall req =
      .ok (buildRecord req p (scoreDetails simf embedCall (buildAnswerMap req.answers) p.questions)) := by
  unfold evaluate_student
  rw [hres]
  dsimp only
  rw [if_neg (by simpa using hq), if_neg (by simpa using ha)]

theorem evaluate_student_ok_inv {Vec : Type} (simf : Vec → Vec → ℚ)
    (store : Option (List Char → Except Unit (Option Paper)))
    (embedCall : ℕ → List (List Char) → Except Unit (List (Option Vec)))
    (req : EvalRequest) (p : Paper) (r : EvalRecord)
    (hres : resolvePaper store req = .ok p)
    (hok : evaluate_student simf store embedCall req = .ok r) :
    p.questions ≠ [] ∧ req.answers ≠ [] ∧
    r = buildRecord req p (scoreDetails simf embedCall (buildAnswerMap req.answers) p.questions) := by
  unfold evaluate_student at hok
  rw [hres] at hok
  dsimp only at hok
  by_cases hq : p.questions.isEmpty
  · rw [if_pos hq] at hok
    exact absurd hok (by simp)
  · rw [if_neg hq] at hok
    by_cases ha : req.answers.isEmpty
    · rw [if_pos ha] at hok
      exact absurd hok (by simp)
    · rw [if_neg ha] at hok
      refine ⟨by simpa using hq, by simpa using ha, ?_⟩
      exact (Except.ok.inj hok).symm

/-- C6: intake failure semantics — a given `paper_id` with no inline paper
and no stored match fails with the 404 `NotFoundError`; a resolved paper
with zero questions, or an empty answers list, fails with a 400
`ValidationError`; in each case the result is an error, so no
`EvaluationRecord` is created. -/
theorem C6_intake_failures {Vec : Type} (simf : Vec → Vec → ℚ)
    (embedCall : ℕ → List (List Char) → Except Unit (List (Option Vec)))
    (req : EvalRequest) :
    (∀ fetch pid, req.paper = none → req.paper_id = some pid → pid ≠ [] →
      fetch pid = .ok none →
      evaluate_student simf (some fetch) embedCall req = .error .notFound ∧
      httpCode .notFound = 404) ∧
    (∀ store p, resolvePaper store req = .ok p → p.questions = [] →
      evaluate_student simf store embedCall req = .error .noQuestions ∧
      httpCode .noQuestions = 400) ∧
    (∀ store p, resolvePaper store req = .ok p → p.questions ≠ [] → req.answers = [] →
      evaluate_student simf store embedCall req = .error .noAnswers ∧
      httpCode .noAnswers = 400) := by
  refine ⟨fun fetch pid hp hid hne hfetch => ⟨?_, rfl⟩,
          fun store p hres hq => ⟨?_, rfl⟩,
          fun store p hres hq ha => ⟨?_, rfl⟩⟩
  · have hres : resolvePaper (some fetch) req = .error .notFound := by
      unfold resolvePaper
      rw [hp, hid]
      dsimp only
      rw [if_neg (by simpa using hne), hfetch]
    unfold evaluate_student
    rw [hres]
  · unfold evaluate_student
    rw [hres]
    dsimp only
    rw [if_pos (by simpa using hq)]
  · unfold evaluate_student
    rw [hres]
    dsimp only
    rw [if_neg (by simpa using hq), if_pos (by simpa using ha)]

/-- C6 witness: the three failures at concrete requests — unknown
`paper_id` "p1" with a store that has no match; an inline paper with no
questions; an inline one-question paper with no answers. -/
theorem C6_intake_failures_witness :
    evaluate_student (fun _ _ => (0 : ℚ) : Unit → Unit → ℚ)
      (some (fun _ => .ok none))
      (fun _ ts => .ok (List.replicate ts.length none))
      { student_id := none, paper_id := some ("p1".toList), paper := none,
        answers := [{ q_index := some (.vint 1), student_answer := some ("x".toList) }] } =
      .error .notFound ∧
    evaluate_student (fun _ _ => (0 : ℚ) : Unit → Unit → ℚ) none
      (fun _ ts => .ok (List.replicate ts.length none))
      { student_id := none, paper_id := none,
        paper := some { title := none, total_marks := none, questions := [] },
        answers := [{ q_index := some (.vint 1), student_answer := some ("x".toList) }] } =
      .error .noQuestions ∧
    evaluate_student (fun _ _ => (0 : ℚ) : Unit → Unit → ℚ) none
      (fun _ ts => .ok (List.replicate ts.length none))
      { student_id := none, paper_id := none,
        paper := some { title := none, total_marks := none, questions :=
          [{ qindex := none, question := none, qtype := some ("mcq".toList), marks := 1,
             answer := some ("a".toList), correct_answer := none }] },
        answers := [] } = .error .noAnswers := by
  refine ⟨?_, ?_, ?_⟩
  · exact ((C6_intake_failures (fun _ _ => (0 : ℚ) : Unit → Unit → ℚ)
      (fun _ ts => .ok (List.replicate ts.length none))
      { student_id := none, paper_id := some ("p1".toList), paper := none,
        answers := [{ q_index := some (.vint 1), student_answer := some ("x".toList) }] }).1
      (fun _ => .ok none) ("p1".toList) rfl rfl (by decide) rfl).1
  · exact ((C6_intake_failures (fun _ _ => (0 : ℚ) : Unit → Unit → ℚ)
      (fun _ ts => .ok (List.replicate ts.length none))
      { student_id := none, paper_id := none,
        paper := some { title := none, total_marks := none, questions := [] },
        answers := [{ q_index := some (.vint 1), student_answer := some ("x".toList) }] }).2.1 none
      { title := none, total_marks := none, questions := [] } rfl rfl).1
  · exact ((C6_intake_failures (fun _ _ => (0 : ℚ) : Unit → Unit → ℚ)
      (fun _ ts => .ok (List.replicate ts.length none))
      { student_id := none, paper_id := none,
        paper := some { title := none, total_marks := none, questions :=
          [{ qindex := none, question := none, qtype := some ("mcq".toList), marks := 1,
             answer := some ("a".toList), correct_answer := none }] },
        answers := [] }).2.2 none
      { title := none, total_marks := none, questions :=
          [{ qindex := none, question := none, qtype := some ("mcq".toList), marks := 1,
             answer := some ("a".toList), correct_answer := none }] } rfl (by decide) rfl).1

/-- C8: for every completed evaluation, the record's total score is the sum
of the per-question awarded marks in its details; its total marks are the
paper's declared total or, absent that, the sum of the question marks; and
the percentage is `round(100 * total_score / total_marks, 2)` when the total
is non-zero and `0.0` when it is zero. -/
theorem C8_totals {Vec : Type} (simf : Vec → Vec → ℚ)
    (store : Option (List Char → Except Unit (Option Paper)))
    (embedCall : ℕ → List (List Char) → Except Unit (List (Option Vec)))
    (req : EvalRequest) (p : Paper) (r : EvalRecord)
    (hres : resolvePaper store req = .ok p)
    (hok : evaluate_student simf store embedCall req = .ok r) :
    r.total_score = (r.details.map Detail.score_awarded).sum ∧
    r.total_marks = p.total_marks.getD ((p.questions.map Question.marks).sum) ∧
    (r.total_marks ≠ 0 → r.percentage = round2 (100 * r.total_score / r.total_marks)) ∧
    (r.total_marks = 0 → r.percentage = 0) := by
  obtain ⟨hq, ha, hr⟩ := evaluate_student_ok_inv simf store embedCall req p r hres hok
  subst hr
  simp only [buildRecord]
  refine ⟨trivial, trivial, fun hz => ?_, fun hz => ?_⟩
  · rw [if_pos hz]
    congr 1
    ring
  · rw [if_neg (by simpa using hz)]

/-! ### Positional structure of the split and scoring phases -/

theorem scoreQuestion_q_index (idx : Int) (q : Question) (s : List Char) :
    (scoreQuestion idx q s).q_index = idx := by
  unfold scoreQuestion mkDetail
  split <;> rfl

theorem scoreQuestion_student (idx : Int) (q : Question) (s : List Char) :
    (scoreQuestion idx q s).student_answer = s := by
  unfold scoreQuestion mkDetail
  split <;> rfl

theorem splitDetailsAux_length (amap : List (Int × List Char)) :
    ∀ (qs : List Question) (idx : Int), (splitDetailsAux amap idx qs).length = qs.length := by
  intro qs
  induction qs with
  | nil => intro idx; rfl
  | cons q rest ih => intro idx; simp [splitDetailsAux, ih]

theorem splitDetailsAux_getD (amap : List (Int × List Char)) (q0 : Question) (d0 : Detail) :
    ∀ (qs : List Question) (idx : Int) (i : ℕ), i < qs.length →
      (splitDetailsAux amap idx qs).getD i d0 =
        scoreQuestion (idx + i) (qs.getD i q0) (mapGet amap (idx + i)) := by
  intro qs
  induction qs with
  | nil => intro idx i h; simp at h
  | cons q rest ih =>
    intro idx i h
    cases i with
    | zero => simp [splitDetailsAux]
    | succ n =>
      have := ih (idx + 1) n (by simpa using Nat.lt_of_succ_lt_succ h)
      simp only [splitDetailsAux, List.getD_cons_succ]
      rw [this]
      congr 1 <;> push_cast <;> ring_nf

theorem splitDetailsAux_qindex_bound (amap : List (Int × List Char)) :
    ∀ (qs : List Question) (idx : Int) (d : Detail),
      d ∈ splitDetailsAux amap idx qs → idx ≤ d.q_index := by
  intro qs
  induction qs with
  | nil => intro idx d h; simp [splitDetailsAux] at h
  | cons q rest ih =>
    intro idx d h
    rcases (by simpa [splitDetailsAux] using h :
        d = scoreQuestion idx q (mapGet amap idx) ∨ d ∈ splitDetailsAux amap (idx + 1) rest) with
      h1 | h2
    · rw [h1, scoreQuestion_q_index]
    · have := ih (idx + 1) d h2
      omega

theorem splitDetailsAux_qindex_nodup (amap : List (Int × List Char)) :
    ∀ (qs : List Question) (idx : Int),
      ((splitDetailsAux amap idx qs).map Detail.q_index).Nodup := by
  intro qs
  induction qs with
  | nil => intro idx; simp [splitDetailsAux]
  | cons q rest ih =>
    intro idx
    simp only [splitDetailsAux, List.map_cons, scoreQuestion_q_index, List.nodup_cons]
    refine ⟨?_, ih (idx + 1)⟩
    intro hmem
    rcases List.mem_map.mp hmem with ⟨d, hd, hdq⟩
    have := splitDetailsAux_qindex_bound amap rest (idx + 1) d hd
    omega

theorem updateFirst_length (k : Int) (f : Detail → Detail) :
    ∀ ds : List Detail, (updateFirst ds k f).length = ds.length := by
  intro ds
  induction ds with
  | nil => rfl
  | cons d rest ih =>
    unfold updateFirst
    split
    · rfl
    · simpa using ih

theorem updateFirst_map_proj {α : Type} (g : Detail → α) (k : Int) (f : Detail → Detail)
    (hg : ∀ d, g (f d) = g d) :
    ∀ ds : List Detail, (updateFirst ds k f).map g = ds.map g := by
  intro ds
  induction ds with
  | nil => rfl
  | cons d rest ih =>
    unfold updateFirst
    split
    · simp [hg]
    · simpa using ih

theorem updateFirst_getD (k : Int) (f : Detail → Detail) (d0 : Detail) :
    ∀ (ds : List Detail), ((ds.map Detail.q_index).Nodup) →
      ∀ i : ℕ, i < ds.length →
        (updateFirst ds k f).getD i d0 =
          if (ds.getD i d0).q_index = k then f (ds.getD i d0) else ds.getD i d0 := by
  intro ds
  induction ds with
  | nil => intro _ i h; simp at h
  | cons d rest ih =>
    intro hnd i h
    have hnd' : (rest.map Detail.q_index).Nodup := (List.nodup_cons.mp hnd).2
    unfold updateFirst
    split
    · rename_i hdk
      cases i with
      | zero => simp [hdk]
      | succ n =>
        have hn : n < rest.length := by simpa using Nat.lt_of_succ_lt_succ h
        have hne : (rest.getD n d0).q_index ≠ k := by
          intro hk
          have hmem : k ∈ rest.map Detail.q_index := by
            rw [← hk]
            refine List.mem_map_of_mem _ ?_
            rw [List.getD_eq_getElem rest d0 hn]
            exact List.getElem_mem hn
          exact (List.nodup_cons.mp hnd).1 (by rwa [hdk])
        rw [List.getD_cons_succ, List.getD_cons_succ, if_neg hne]
    · rename_i hdk
      cases i with
      | zero => simp [hdk]
      | succ n =>
        have hn : n < rest.length := by simpa using Nat.lt_of_succ_lt_succ h
        simpa using ih hnd' n hn

theorem foldl_updateFirst_length (f : Detail → Detail) :
    ∀ (ks : List Int) (ds : List Detail),
      (ks.foldl (fun a k => updateFirst a k f) ds).length = ds.length := by
  intro ks
  induction ks with
  | nil => intro ds; rfl
  | cons k rest ih =>
    intro ds
    simp only [List.foldl_cons]
    rw [ih, updateFirst_length]

theorem foldl_updateFirst_getD (f : Detail → Detail) (d0 : Detail)
    (hf : ∀ d, (f d).q_index = d.q_index) :
    ∀ (ks : List Int) (ds : List Detail), (ds.map Detail.q_index).Nodup → ks.Nodup →
      ∀ i : ℕ, i < ds.length →
        (ks.foldl (fun a k => updateFirst a k f) ds).getD i d0 =
          if (ds.getD i d0).q_index ∈ ks then f (ds.getD i d0) else ds.getD i d0 := by
  intro ks
  induction ks with
  | nil => intro ds _ _ i h; simp
  | cons k rest ih =>
    intro ds hnd hks i h
    simp only [List.foldl_cons]
    have hnd' : ((updateFirst ds k f).map Detail.q_index).Nodup := by
      rw [updateFirst_map_proj Detail.q_index k f hf]
      exact hnd
    have hlen : i < (updateFirst ds k f).length := by rw [updateFirst_length]; exact h
    rw [ih (updateFirst ds k f) hnd' (List.nodup_cons.mp hks).2 i hlen]
    rw [updateFirst_getD k f d0 ds hnd i h]
    by_cases hdk : (ds.getD i d0).q_index = k
    · rw [if_pos hdk]
      have hk_not : k ∉ rest := (List.nodup_cons.mp hks).1
      rw [if_neg (by rw [hf, hdk]; exact hk_not), if_pos (by rw [hdk]; exact List.mem_cons_self k rest)]
    · rw [if_neg hdk]
      by_cases hmem : (ds.getD i d0).q_index ∈ rest
      · rw [if_pos hmem, if_pos (List.mem_cons_of_mem k hmem)]
      · rw [if_neg hmem, if_neg (fun hc => (List.mem_cons.mp hc).elim hdk hmem)]

theorem subjIndicesAux_mem (q0 : Question) :
    ∀ (qs : List Question) (idx k : Int),
      k ∈ subjIndicesAux idx qs ↔
        ∃ i : ℕ, i < qs.length ∧ k = idx + i ∧ ¬isMCQfam (qs.getD i q0) := by
  intro qs
  induction qs with
  | nil =>
    intro idx k
    simp [subjIndicesAux]
  | cons q rest ih =>
    intro idx k
    unfold subjIndicesAux
    split
    · rename_i hq
      rw [ih (idx + 1) k]
      constructor
      · rintro ⟨i, hi, hk, hm⟩
        exact ⟨i + 1, by simpa using Nat.succ_lt_succ hi, by push_cast; omega, by simpa using hm⟩
      · rintro ⟨i, hi, hk, hm⟩
        cases i with
        | zero => exact absurd hq (by simpa using hm)
        | succ n =>
          exact ⟨n, by simpa using Nat.lt_of_succ_lt_succ hi, by push_cast at hk ⊢; omega,
            by simpa using hm⟩
    · rename_i hq
      simp only [List.mem_cons]
      constructor
      · rintro (hk | hk)
        · exact ⟨0, by simp, by simpa using hk, by simpa using hq⟩
        · rcases (ih (idx + 1) k).mp hk with ⟨i, hi, hk2, hm⟩
          exact ⟨i + 1, by simpa using Nat.succ_lt_succ hi, by push_cast; omega, by simpa using hm⟩
      · rintro ⟨i, hi, hk, hm⟩
        cases i with
        | zero => left; simpa using hk
        | succ n =>
          right
          exact (ih (idx + 1) k).mpr ⟨n, by simpa using Nat.lt_of_succ_lt_succ hi,
            by push_cast at hk ⊢; omega, by simpa using hm⟩

theorem subjIndicesAux_lb :
    ∀ (qs : List Question) (idx k : Int), k ∈ subjIndicesAux idx qs → idx ≤ k := by
  intro qs
  induction qs with
  | nil => intro idx k h; simp [subjIndicesAux] at h
  | cons q rest ih =>
    intro idx k h
    unfold subjIndicesAux at h
    split at h
    · have := ih (idx + 1) k h
      omega
    · rcases List.mem_cons.mp h with h1 | h2
      · omega
      · have := ih (idx + 1) k h2
        omega

theorem subjIndicesAux_nodup :
    ∀ (qs : List Question) (idx : Int), (subjIndicesAux idx qs).Nodup := by
  intro qs
  induction qs with
  | nil => intro idx; simp [subjIndicesAux]
  | cons q rest ih =>
    intro idx
    unfold subjIndicesAux
    split
    · exact ih (idx + 1)
    · refine List.nodup_cons.mpr ⟨?_, ih (idx + 1)⟩
      intro hmem
      have := subjIndicesAux_lb rest (idx + 1) idx hmem
      omega

theorem subjTextsAux_eq_nil_iff (amap : List (Int × List Char)) :
    ∀ (qs : List Question) (idx : Int),
      subjTextsAux amap idx qs = [] ↔ subjIndicesAux idx qs = [] := by
  intro qs
  induction qs with
  | nil => intro idx; simp [subjTextsAux, subjIndicesAux]
  | cons q rest ih =>
    intro idx
    unfold subjTextsAux subjIndicesAux
    split
    · exact ih (idx + 1)
    · simp

theorem fallbackScoreWith_q_index (lbl : FallbackLabels) (d : Detail) :
    (fallbackScoreWith lbl d).q_index = d.q_index := by
  unfold fallbackScoreWith
  dsimp only
  split_ifs <;> rfl

theorem fallbackScoreWith_student (lbl : FallbackLabels) (d : Detail) :
    (fallbackScoreWith lbl d).student_answer = d.student_answer := by
  unfold fallbackScoreWith
  dsimp only
  split_ifs <;> rfl

theorem fallbackScoreExc_q_index (d : Detail) : (fallbackScoreExc d).q_index = d.q_index :=
  fallbackScoreWith_q_index excLabels d

theorem scoreOnePair_q_index {Vec : Type} (simf : Vec → Vec → ℚ) (se ce : Option Vec) (d : Detail) :
    (scoreOnePair simf se ce d).q_index = d.q_index := by
  unfold scoreOnePair
  cases se <;> cases ce <;>
    simp [fallbackScoreWith_q_index, fallbackScoreAI]

theorem scoreOnePair_student {Vec : Type} (simf : Vec → Vec → ℚ) (se ce : Option Vec) (d : Detail) :
    (scoreOnePair simf se ce d).student_answer = d.student_answer := by
  unfold scoreOnePair
  cases se <;> cases ce <;>
    simp [fallbackScoreWith_student, fallbackScoreAI]

theorem scorePairsAux_length {Vec : Type} (simf : Vec → Vec → ℚ)
    (embeddings : List (Option Vec)) :
    ∀ (ks : List Int) (i : ℕ) (ds : List Detail),
      (scorePairsAux simf embeddings i ks ds).length = ds.length := by
  intro ks
  induction ks with
  | nil => intro i ds; rfl
  | cons k rest ih =>
    intro i ds
    unfold scorePairsAux
    rw [ih, updateFirst_length]

theorem scorePairsAux_map_proj {Vec : Type} {α : Type} (simf : Vec → Vec → ℚ)
    (embeddings : List (Option Vec)) (g : Detail → α)
    (hg : ∀ se ce d, g (scoreOnePair simf se ce d) = g d) :
    ∀ (ks : List Int) (i : ℕ) (ds : List Detail),
      (scorePairsAux simf embeddings i ks ds).map g = ds.map g := by
  intro ks
  induction ks with
  | nil => intro i ds; rfl
  | cons k rest ih =>
    intro i ds
    unfold scorePairsAux
    rw [ih, updateFirst_map_proj g _ _ (fun d => hg _ _ d)]

theorem foldl_updateFirst_map_proj {α : Type} (g : Detail → α) (f : Detail → Detail)
    (hg : ∀ d, g (f d) = g d) :
    ∀ (ks : List Int) (ds : List Detail),
      ((ks.foldl (fun a k => updateFirst a k f) ds).map g) = ds.map g := by
  intro ks
  induction ks with
  | nil => intro ds; rfl
  | cons k rest ih =>
    intro ds
    simp only [List.foldl_cons]
    rw [ih, updateFirst_map_proj g _ _ hg]

theorem scoreDetails_map_proj {Vec : Type} {α : Type} (simf : Vec → Vec → ℚ)
    (embedCall : ℕ → List (List Char) → Except Unit (List (Option Vec)))
    (amap : List (Int × List Char)) (questions : List Question) (g : Detail → α)
    (hg1 : ∀ se ce d, g (scoreOnePair simf se ce d) = g d)
    (hg2 : ∀ d, g (fallbackScoreExc d) = g d) :
    (scoreDetails simf embedCall amap questions).map g =
      (splitDetails amap questions).map g := by
  unfold scoreDetails
  dsimp only
  split
  · rfl
  · split
    · rw [scorePairsAux_map_proj simf _ g hg1]
    · rw [foldl_updateFirst_map_proj g _ hg2]

theorem scoreDetails_length {Vec : Type} (simf : Vec → Vec → ℚ)
    (embedCall : ℕ → List (List Char) → Except Unit (List (Option Vec)))
    (amap : List (Int × List Char)) (questions : List Question) :
    (scoreDetails simf embedCall amap questions).length = questions.length := by
  unfold scoreDetails
  dsimp only
  split
  · exact splitDetailsAux_length amap questions 1
  · split
    · rw [scorePairsAux_length]
      exact splitDetailsAux_length amap questions 1
    · rw [foldl_updateFirst_length]
      exact splitDetailsAux_length amap questions 1

/-- C1: when intake succeeds (paper resolved, at least one question and one
submitted answer) and the embedding batch call raises an exception, the
orchestrator still returns a complete `EvaluationRecord` with one detail per
question in paper order; every subjective question's detail is populated by
the fallback policy of the `except` handler, and no exception escapes. -/
theorem C1_batch_exception_fallback {Vec : Type} (simf : Vec → Vec → ℚ)
    (store : Option (List Char → Except Unit (Option Paper)))
    (embedCall : ℕ → List (List Char) → Except Unit (List (Option Vec)))
    (req : EvalRequest) (p : Paper)
    (hres : resolvePaper store req = .ok p)
    (hq : p.questions ≠ []) (ha : req.answers ≠ [])
    (hraise : ∀ t texts, embedCall t texts = .error ()) :
    ∃ r, evaluate_student simf store embedCall req = .ok r ∧
      r.details.length = p.questions.length ∧
      ∀ i : ℕ, i < p.questions.length →
        r.details.getD i dfltDetail =
          (if isMCQfam (p.questions.getD i dfltQuestion) then
            scoreQuestion (1 + (i : Int)) (p.questions.getD i dfltQuestion)
              (mapGet (buildAnswerMap req.answers) (1 + (i : Int)))
          else
            fallbackScoreExc (scoreQuestion (1 + (i : Int)) (p.questions.getD i dfltQuestion)
              (mapGet (buildAnswerMap req.answers) (1 + (i : Int))))) := by
  refine ⟨_, evaluate_student_ok simf store embedCall req p hres hq ha, ?_, ?_⟩
  · simp only [buildRecord]
    exact scoreDetails_length simf embedCall (buildAnswerMap req.answers) p.questions
  · intro i hi
    simp only [buildRecord]
    have hiff : ((1 : Int) + i) ∈ subjIndicesAux 1 p.questions ↔
        ¬isMCQfam (p.questions.getD i dfltQuestion) := by
      rw [subjIndicesAux_mem dfltQuestion]
      constructor
      · rintro ⟨j, hj, hk, hm⟩
        have hij : i = j := by omega
        rwa [hij]
      · intro hm
        exact ⟨i, hi, rfl, hm⟩
    unfold scoreDetails
    dsimp only
    by_cases hempty : (subjTexts (buildAnswerMap req.answers) p.questions).isEmpty
    · rw [if_pos hempty]
      have hidx : subjIndicesAux 1 p.questions = [] := by
        rw [← subjTextsAux_eq_nil_iff (buildAnswerMap req.answers)]
        simpa [subjTexts] using hempty
      have hmcq : isMCQfam (p.questions.getD i dfltQuestion) := by
        by_contra hm
        have hmem := hiff.mpr hm
        rw [hidx] at hmem
        simp at hmem
      rw [if_pos hmcq]
      exact splitDetailsAux_getD (buildAnswerMap req.answers) dfltQuestion dfltDetail
        p.questions 1 i hi
    · rw [if_neg hempty, hraise]
      dsimp only
      have hval := foldl_updateFirst_getD fallbackScoreExc dfltDetail fallbackScoreExc_q_index
        (subjIndices p.questions) (splitDetails (buildAnswerMap req.answers) p.questions)
        (splitDetailsAux_qindex_nodup (buildAnswerMap req.answers) p.questions 1)
        (subjIndicesAux_nodup p.questions 1) i
        (by unfold splitDetails; rw [splitDetailsAux_length]; exact hi)
      rw [hval]
      have hsd := splitDetailsAux_getD (buildAnswerMap req.answers) dfltQuestion dfltDetail
        p.questions 1 i hi
      unfold splitDetails at hsd ⊢
      rw [hsd, scoreQuestion_q_index]
      unfold subjIndices
      by_cases hm : isMCQfam (p.questions.getD i dfltQuestion)
      · rw [if_neg (fun hc => (hiff.mp hc) hm), if_pos hm]
      · rw [if_pos (hiff.mpr hm), if_neg hm]

/-- C1 witness: Scenario D's one-subjective-question submission with a
raising batch call still yields a complete record whose single detail is
fallback-scored. -/
theorem C1_batch_exception_fallback_witness :
    (okDetails (evaluate_student simZero none embedRaise reqScenD)).map
      (fun ds => (ds.length, ds.getD 0 dfltDetail)) =
      some (1, fallbackScoreExc (scoreQuestion 1 qScenD
        (mapGet (buildAnswerMap reqScenD.answers) 1))) := by
  obtain ⟨r, hok, hlen, hdet⟩ := C1_batch_exception_fallback simZero none embedRaise reqScenD
    pScenD rfl (by decide) (by decide) (fun _ _ => rfl)
  rw [hok]
  have h0 := hdet 0 (by decide)
  rw [if_neg (by decide)] at h0
  have hlen' : r.details.length = 1 := by rw [hlen]; rfl
  have h0' : r.details.getD 0 dfltDetail =
      fallbackScoreExc (scoreQuestion 1 qScenD (mapGet (buildAnswerMap reqScenD.answers) 1)) := by
    rw [h0]
    norm_num
    rfl
  show some (r.details.length, r.details.getD 0 dfltDetail) = _
  rw [hlen', h0']

/-- C3 (code evidence): Scenario A on `/api/evaluate_student` — the MCQ
branch (unified_service.py 1126-1137) compares whole trimmed lowercased
strings, so "a) option text" against reference "A" is awarded 0 with
"Incorrect"; yet the repo's own normalizer `extract_answer_letter` (used by
`/api/evaluate_mock`) maps both answers to the same canonical letter "a",
under which the claim's rule would award the mark. -/
theorem C3_scenarioA_code_result :
    (okDetails (evaluate_student simZero none embedAllNull reqScenA)).map
      (fun ds => ds.map (fun d => (d.score_awarded, d.feedback))) =
      some [((0 : ℚ), "Incorrect")] ∧
    extract_answer_letter ("a) option text".toList) = extract_answer_letter ("A".toList) ∧
    extract_answer_letter ("A".toList) = "a".toList := by
  refine ⟨?_, by decide, by decide⟩
  simp +decide [evaluate_student, resolvePaper, reqScenA, qScenA, buildRecord, scoreDetails,
    splitDetails, splitDetailsAux, scoreQuestion, mkDetail, mcqScore, buildAnswerMap, mapInsert,
    mapGet, pyToInt, qidxVal, subjIndices, subjIndicesAux, subjTexts, subjTextsAux, isMCQfam,
    qTypeLower, correctAnsOf, orByTruthiness, pylower, pstrip, okDetails]

/-- The skeleton detail of Scenario D's single subjective question. -/
def dScenD : Detail := mkDetail 1 qScenD ("deadlock circular wait".toList)

theorem scenD_split : scoreQuestion 1 qScenD ("deadlock circular wait".toList) = dScenD := by
  unfold scoreQuestion
  rw [if_neg (by decide)]
  rfl

theorem scenD_fallback_eval : fallbackScoreWith excLabels dScenD =
    { dScenD with score_awarded := 4, feedback := "Attempted (fallback evaluation)" } := by
  have h2 : interCount ((words (pylower dScenD.student_answer)).dedup)
      ((words (pylower dScenD.correct_answer)).dedup) = 2 := by decide
  have h6 : ((words (pylower dScenD.correct_answer)).dedup).length = 6 := by decide
  unfold fallbackScoreWith
  dsimp only
  rw [if_neg (by decide), h2, h6]
  rw [if_pos (by norm_num), if_neg (by norm_num), if_pos (by norm_num)]
  have hr : round2 (dScenD.marks * 0.4) = 4 := by
    have hm : dScenD.marks = 10 := by decide
    rw [hm]
    have : (10 : ℚ) * 0.4 * 100 = 400 := by norm_num
    rw [round2, this]
    norm_num
  rw [hr]
  rfl

/-- C4 counterexample: in Scenario D the reference "deadlock occurs when
processes wait circularly" has 6 distinct tokens of which only 2 (deadlock,
wait) occur in "deadlock circular wait" — "circular" does not match
"circularly" — so the ratio is 1/3, not 0.6: the fallback awards
`round(0.4*max, 2) = 4.0`, not `round(0.7*max, 2) = 7.0` as claimed. -/
theorem C4_scenarioD_counterexample :
    (okDetails (evaluate_student simZero none embedRaise reqScenD)).map
      (fun ds => ds.map (fun d => (d.score_awarded, d.feedback))) =
      some [((4 : ℚ), "Attempted (fallback evaluation)")] ∧
    ((4 : ℚ), ("Attempted (fallback evaluation)" : String)) ≠
      (round2 ((10 : ℚ) * 0.7), "Partially correct (fallback evaluation)") := by
  constructor
  · simp +decide [evaluate_student, resolvePaper, reqScenD, pScenD, buildRecord,
      scoreDetails, splitDetails, splitDetailsAux,
      buildAnswerMap, mapInsert, mapGet, pyToInt, qidxVal, subjIndices, subjIndicesAux,
      subjTexts, subjTextsAux, qTypeLower, correctAnsOf, orByTruthiness,
      okDetails, embedRaise, fallbackScoreExc, updateFirst]
    constructor <;>
      rw [show ['d', 'e', 'a', 'd', 'l', 'o', 'c', 'k', ' ', 'c', 'i', 'r', 'c', 'u', 'l',
            'a', 'r', ' ', 'w', 'a', 'i', 't'] = "deadlock circular wait".toList from rfl,
          scenD_split, scenD_fallback_eval]
  · intro hc
    rw [Prod.mk.injEq] at hc
    have h7 : round2 ((10 : ℚ) * 0.7) = 7 := by
      have : (10 : ℚ) * 0.7 * 100 = 700 := by norm_num
      rw [round2, this]
      norm_num
    rw [h7] at hc
    norm_num at hc

/-- C4 (amended): the fallback policy of the `except` handler for a
non-empty student answer follows the token-overlap tiers — ratio
`|student ∩ reference| / |reference|` at least 0.6 awards
`round(0.7*max, 2)`, in `[0.3, 0.6)` awards `round(0.4*max, 2)`, below 0.3
awards `round(0.1*max, 2)`, and 0 when the reference has no tokens — and
each tier label contains "fallback". -/
theorem C4_fallback_policy (d : Detail) (hne : d.student_answer ≠ []) :
    (((words (pylower d.correct_answer)).dedup).length = 0 →
      fallbackScoreExc d = { d with score_awarded := 0, feedback := "Could not evaluate" }) ∧
    (∀ r : ℚ, r = (interCount ((words (pylower d.student_answer)).dedup)
        ((words (pylower d.correct_answer)).dedup) : ℚ) /
        (((words (pylower d.correct_answer)).dedup).length : ℚ) →
      ((words (pylower d.correct_answer)).dedup).length ≠ 0 →
      ((0.6 ≤ r → fallbackScoreExc d =
          { d with score_awarded := round2 (d.marks * 0.7),
                   feedback := "Partially correct (fallback evaluation)" }) ∧
       (0.3 ≤ r → r < 0.6 → fallbackScoreExc d =
          { d with score_awarded := round2 (d.marks * 0.4),
                   feedback := "Attempted (fallback evaluation)" }) ∧
       (r < 0.3 → fallbackScoreExc d =
          { d with score_awarded := round2 (d.marks * 0.1),
                   feedback := "Insufficient (fallback evaluation)" }))) ∧
    (∃ s1 s2 s3 s4 s5 s6 : String,
      "Partially correct (fallback evaluation)" = s1 ++ "fallback" ++ s2 ∧
      "Attempted (fallback evaluation)" = s3 ++ "fallback" ++ s4 ∧
      "Insufficient (fallback evaluation)" = s5 ++ "fallback" ++ s6) := by
  have hne' : ¬(pylower d.student_answer).isEmpty = true := by
    simp [pylower]
    exact hne
  refine ⟨fun hlen0 => ?_, fun r hr hlen => ⟨fun h6 => ?_, fun h3 h6 => ?_, fun h3 => ?_⟩, ?_⟩
  · unfold fallbackScoreExc fallbackScoreWith
    dsimp only
    rw [if_neg hne', if_neg (by omega)]
  · unfold fallbackScoreExc fallbackScoreWith
    dsimp only
    rw [if_neg hne', if_pos (by omega), if_pos (by rw [← hr]; exact h6)]
    rfl
  · unfold fallbackScoreExc fallbackScoreWith
    dsimp only
    rw [if_neg hne', if_pos (by omega), if_neg (by rw [← hr]; exact not_le.mpr h6),
      if_pos (by rw [← hr]; exact h3)]
    rfl
  · unfold fallbackScoreExc fallbackScoreWith
    dsimp only
    rw [if_neg hne', if_pos (by omega),
      if_neg (by rw [← hr]; exact not_le.mpr (lt_of_lt_of_le h3 (by norm_num))),
      if_neg (by rw [← hr]; exact not_le.mpr h3)]
    rfl
  · exact ⟨"Partially correct (", " evaluation)", "Attempted (", " evaluation)",
      "Insufficient (", " evaluation)", rfl, rfl, rfl⟩

/-- C4 witness: the fallback policy applied to Scenario D's detail — ratio
1/3 lands in the middle tier, awarding `round(0.4*10, 2) = 4` with the
"Attempted (fallback evaluation)" label. -/
theorem C4_fallback_policy_witness :
    fallbackScoreExc dScenD =
      { dScenD with score_awarded := round2 (dScenD.marks * 0.4),
                    feedback := "Attempted (fallback evaluation)" } := by
  have h := ((C4_fallback_policy dScenD (by decide)).2.1
    ((interCount ((words (pylower dScenD.student_answer)).dedup)
        ((words (pylower dScenD.correct_answer)).dedup) : ℚ) /
        (((words (pylower dScenD.correct_answer)).dedup).length : ℚ)) rfl (by decide)).2.1
  have h2 : interCount ((words (pylower dScenD.student_answer)).dedup)
      ((words (pylower dScenD.correct_answer)).dedup) = 2 := by decide
  have h6 : ((words (pylower dScenD.correct_answer)).dedup).length = 6 := by decide
  rw [h2, h6] at h
  exact h (by norm_num) (by norm_num)

theorem mapGet_mapInsert (k k' : Int) (v : List Char) :
    ∀ m : List (Int × List Char),
      mapGet (mapInsert k v m) k' = if k' = k then v else mapGet m k' := by
  intro m
  induction m with
  | nil =>
    unfold mapInsert mapGet
    dsimp only
    by_cases h : k' = k
    · rw [if_pos h.symm, if_pos h]
    · rw [if_neg (fun hc => h hc.symm), if_neg h]
      rfl
  | cons p rest ih =>
    unfold mapInsert
    split
    · rename_i hpk
      unfold mapGet
      dsimp only
      by_cases h : k' = k
      · rw [if_pos h.symm, if_pos h]
      · rw [if_neg (fun hc => h hc.symm), if_neg h,
          if_neg (fun hc : p.1 = k' => h (hc.symm.trans hpk))]
    · rename_i hpk
      unfold mapGet
      by_cases h : p.1 = k'
      · rw [if_pos h, if_pos h, if_neg (fun hc : k' = k => hpk (h.trans hc))]
      · rw [if_neg h, if_neg h, ih]

/-- One step of the answer-map loop. -/
def answerMapStep (m : List (Int × List Char)) (a : SubmittedAnswer) :
    List (Int × List Char) :=
  match pyToInt (qidxVal a) with
  | some qi => if 0 < qi then mapInsert qi (a.student_answer.getD []) m else m
  | none => m

theorem buildAnswerMap_eq_foldl (answers : List SubmittedAnswer) :
    buildAnswerMap answers = answers.foldl answerMapStep [] := rfl

/-- The (at most one) valid pair contributed by one submitted answer. -/
def onePair (a : SubmittedAnswer) : List (Int × List Char) :=
  match pyToInt (qidxVal a) with
  | some qi => if 0 < qi then [(qi, a.student_answer.getD [])] else []
  | none => []

theorem validPairs_cons (a : SubmittedAnswer) (rest : List SubmittedAnswer) :
    validPairs (a :: rest) = onePair a ++ validPairs rest := by
  unfold validPairs onePair
  rw [List.filterMap_cons]
  rcases hpi : pyToInt (qidxVal a) with _ | qi
  · rfl
  · dsimp only
    by_cases hq : 0 < qi
    · rw [if_pos hq, if_pos hq]
      rfl
    · rw [if_neg hq, if_neg hq]
      rfl

theorem onePair_reverse (a : SubmittedAnswer) : (onePair a).reverse = onePair a := by
  unfold onePair
  rcases pyToInt (qidxVal a) with _ | qi
  · rfl
  · dsimp only
    by_cases hq : 0 < qi
    · rw [if_pos hq]
      rfl
    · rw [if_neg hq]
      rfl

theorem answerMapStep_get (m : List (Int × List Char)) (a : SubmittedAnswer) (k : Int) :
    mapGet (answerMapStep m a) k =
      (match (onePair a).find? (fun p : Int × List Char => p.1 == k) with
       | some p => p.2
       | none => mapGet m k) := by
  unfold answerMapStep onePair
  rcases hpi : pyToInt (qidxVal a) with _ | qi
  · rfl
  · dsimp only
    by_cases hq : 0 < qi
    · rw [if_pos hq, if_pos hq, mapGet_mapInsert]
      by_cases hk : qi = k
      · have hb : ((qi, a.student_answer.getD []).1 == k) = true := by simpa using hk
        rw [if_pos hk.symm]
        simp only [List.find?_cons, hb]
      · have hb : ((qi, a.student_answer.getD []).1 == k) = false := by simpa using hk
        rw [if_neg (fun hc => hk hc.symm)]
        simp only [List.find?_cons, hb, List.find?_nil]
    · rw [if_neg hq, if_neg hq]
      rfl

theorem foldl_answerMapStep_get :
    ∀ (answers : List SubmittedAnswer) (m : List (Int × List Char)) (k : Int),
      mapGet (answers.foldl answerMapStep m) k =
        (match ((validPairs answers).reverse.find? (fun p : Int × List Char => p.1 == k)) with
         | some p => p.2
         | none => mapGet m k) := by
  intro answers
  induction answers with
  | nil => intro m k; rfl
  | cons a rest ih =>
    intro m k
    simp only [List.foldl_cons]
    rw [ih (answerMapStep m a) k, validPairs_cons, List.reverse_append, List.find?_append,
      answerMapStep_get, onePair_reverse]
    rcases hfind : (validPairs rest).reverse.find? (fun p : Int × List Char => p.1 == k)
      with _ | pfound
    · rw [Option.none_or]
    · rfl

theorem buildAnswerMap_spec (answers : List SubmittedAnswer) (k : Int) :
    mapGet (buildAnswerMap answers) k = lookupAnswerSpec answers k := by
  rw [buildAnswerMap_eq_foldl, foldl_answerMapStep_get]
  unfold lookupAnswerSpec
  rcases (validPairs answers).reverse.find? (fun p : Int × List Char => p.1 == k) with _ | p
  · rfl
  · rfl

theorem getD_map_comm {α β : Type} (f : α → β) (d : α) :
    ∀ (l : List α) (i : ℕ), (l.map f).getD i (f d) = f (l.getD i d) := by
  intro l
  induction l with
  | nil => intro i; rfl
  | cons x rest ih =>
    intro i
    cases i with
    | zero => rfl
    | succ n => simp [ih n]

theorem scoreQuestion_setQidx (v : Option Int) (idx : Int) (q : Question) (s : List Char) :
    scoreQuestion idx (setQidx v q) s = scoreQuestion idx q s := by
  cases q
  rfl

theorem isMCQfam_setQidx (v : Option Int) (q : Question) :
    isMCQfam (setQidx v q) ↔ isMCQfam q := by
  cases q
  exact Iff.rfl

theorem splitDetailsAux_setQidx (amap : List (Int × List Char)) (v : Option Int) :
    ∀ (qs : List Question) (idx : Int),
      splitDetailsAux amap idx (qs.map (setQidx v)) = splitDetailsAux amap idx qs := by
  intro qs
  induction qs with
  | nil => intro idx; rfl
  | cons q rest ih =>
    intro idx
    simp only [List.map_cons, splitDetailsAux, scoreQuestion_setQidx, ih]

theorem subjIndicesAux_setQidx (v : Option Int) :
    ∀ (qs : List Question) (idx : Int),
      subjIndicesAux idx (qs.map (setQidx v)) = subjIndicesAux idx qs := by
  intro qs
  induction qs with
  | nil => intro idx; rfl
  | cons q rest ih =>
    intro idx
    simp only [List.map_cons, subjIndicesAux]
    by_cases hm : isMCQfam q
    · rw [if_pos ((isMCQfam_setQidx v q).mpr hm), if_pos hm, ih]
    · rw [if_neg (fun hc => hm ((isMCQfam_setQidx v q).mp hc)), if_neg hm, ih]

theorem correctAnsOf_setQidx (v : Option Int) (q : Question) :
    correctAnsOf (setQidx v q) = correctAnsOf q := by
  cases q
  rfl

theorem subjTextsAux_setQidx (amap : List (Int × List Char)) (v : Option Int) :
    ∀ (qs : List Question) (idx : Int),
      subjTextsAux amap idx (qs.map (setQidx v)) = subjTextsAux amap idx qs := by
  intro qs
  induction qs with
  | nil => intro idx; rfl
  | cons q rest ih =>
    intro idx
    simp only [List.map_cons, subjTextsAux]
    by_cases hm : isMCQfam q
    · rw [if_pos ((isMCQfam_setQidx v q).mpr hm), if_pos hm, ih]
    · rw [if_neg (fun hc => hm ((isMCQfam_setQidx v q).mp hc)), if_neg hm, ih,
        correctAnsOf_setQidx]

theorem scoreDetails_setQidx {Vec : Type} (simf : Vec → Vec → ℚ)
    (embedCall : ℕ → List (List Char) → Except Unit (List (Option Vec)))
    (amap : List (Int × List Char)) (v : Option Int) (qs : List Question) :
    scoreDetails simf embedCall amap (qs.map (setQidx v)) =
      scoreDetails simf embedCall amap qs := by
  unfold scoreDetails splitDetails subjIndices subjTexts
  rw [splitDetailsAux_setQidx, subjIndicesAux_setQidx, subjTextsAux_setQidx]

/-- C10 (amended): questions are matched to submitted answers purely by
1-based position — the i-th detail of a completed evaluation carries
`q_index = i+1` and the student answer looked up for position `i+1` by
last-wins Python `int()` coercion (numeric strings are parsed and floats
truncated toward zero rather than dropped; only a failing coercion or a
non-positive result drops the answer); the record has exactly one detail per
question in paper order, and the `index` field stored inside a question
object is ignored by the scoring pipeline. -/
theorem C10_positional_matching {Vec : Type} (simf : Vec → Vec → ℚ)
    (store : Option (List Char → Except Unit (Option Paper)))
    (embedCall : ℕ → List (List Char) → Except Unit (List (Option Vec)))
    (req : EvalRequest) (p : Paper) (r : EvalRecord)
    (hres : resolvePaper store req = .ok p)
    (hok : evaluate_student simf store embedCall req = .ok r) :
    r.details.length = p.questions.length ∧
    (∀ i : ℕ, i < p.questions.length →
      (r.details.getD i dfltDetail).q_index = 1 + (i : Int) ∧
      (r.details.getD i dfltDetail).student_answer =
        lookupAnswerSpec req.answers (1 + (i : Int))) ∧
    (∀ (v : Option Int) (amap : List (Int × List Char)) (qs : List Question),
      scoreDetails simf embedCall amap (qs.map (setQidx v)) =
        scoreDetails simf embedCall amap qs) := by
  obtain ⟨hq, ha, hr⟩ := evaluate_student_ok_inv simf store embedCall req p r hres hok
  subst hr
  refine ⟨?_, fun i hi => ?_, fun v amap qs => scoreDetails_setQidx simf embedCall amap v qs⟩
  · simp only [buildRecord]
    exact scoreDetails_length simf embedCall (buildAnswerMap req.answers) p.questions
  · have hd0 : dfltDetail = scoreQuestion 0 dfltQuestion [] := by
      unfold scoreQuestion
      rw [if_neg (by decide)]
      rfl
    have hsd := splitDetailsAux_getD (buildAnswerMap req.answers) dfltQuestion dfltDetail
      p.questions 1 i hi
    constructor
    · have hmap := scoreDetails_map_proj simf embedCall (buildAnswerMap req.answers)
        p.questions Detail.q_index (fun se ce d => scoreOnePair_q_index simf se ce d)
        fallbackScoreExc_q_index
      have h1 : Detail.q_index ((scoreDetails simf embedCall (buildAnswerMap req.answers)
          p.questions).getD i dfltDetail) =
          Detail.q_index ((splitDetails (buildAnswerMap req.answers) p.questions).getD i
            dfltDetail) := by
        rw [← getD_map_comm Detail.q_index dfltDetail, hmap, getD_map_comm]
      simp only [buildRecord]
      rw [h1]
      unfold splitDetails
      rw [hsd, scoreQuestion_q_index]
    · have hmap := scoreDetails_map_proj simf embedCall (buildAnswerMap req.answers)
        p.questions Detail.student_answer (fun se ce d => scoreOnePair_student simf se ce d)
        (fun d => fallbackScoreWith_student excLabels d)
      have h1 : Detail.student_answer ((scoreDetails simf embedCall (buildAnswerMap req.answers)
          p.questions).getD i dfltDetail) =
          Detail.student_answer ((splitDetails (buildAnswerMap req.answers) p.questions).getD i
            dfltDetail) := by
        rw [← getD_map_comm Detail.student_answer dfltDetail, hmap, getD_map_comm]
      simp only [buildRecord]
      rw [h1]
      unfold splitDetails
      rw [hsd, scoreQuestion_student, buildAnswerMap_spec]

/-- C10 counterexample: a submitted answer whose `q_index` is the
non-integer float 2.5 is not dropped — Python `int()` truncates it to 2, so
the answer "b" lands on question 2 and is scored "Correct"; the second
detail is not scored against an empty answer as the claim states. -/
theorem C10_float_qindex_counterexample :
    (okDetails (evaluate_student simZero none embedAllNull reqFloatIdx)).map
      (fun ds => ds.map (fun d => (d.student_answer, d.feedback))) =
      some [(([] : List Char), "Answer missing."), ("b".toList, "Correct")] ∧
    ("b".toList : List Char) ≠ [] := by
  refine ⟨?_, by decide⟩
  have hfloor : pytrunc ((5 : ℚ) / 2) = 2 := by
    unfold pytrunc
    rw [if_pos (by norm_num), Int.floor_eq_iff]
    norm_num
  simp +decide [evaluate_student, resolvePaper, reqFloatIdx, qW, qM2, buildRecord,
    scoreDetails, splitDetails, splitDetailsAux, scoreQuestion, mkDetail, mcqScore,
    buildAnswerMap, mapInsert, mapGet, pyToInt, qidxVal, hfloor, subjIndices, subjIndicesAux,
    subjTexts, subjTextsAux, isMCQfam, qTypeLower, correctAnsOf, orByTruthiness, pylower,
    pstrip, okDetails, embedAllNull]

/-- C10 witness: the one-question submission `reqW` evaluated end to end has
its single detail at position 1 carrying the positionally looked-up answer. -/
theorem C10_positional_matching_witness :
    (rW.details.getD 0 dfltDetail).q_index = 1 ∧
    (rW.details.getD 0 dfltDetail).student_answer = lookupAnswerSpec reqW.answers 1 := by
  have hok : evaluate_student simZero none embedAllNull reqW = .ok rW := by
    simp +decide [evaluate_student, resolvePaper, reqW, pW, qW, rW, dW, buildRecord,
      scoreDetails, splitDetails, splitDetailsAux, scoreQuestion, mkDetail, mcqScore,
      buildAnswerMap, mapInsert, mapGet, pyToInt, qidxVal, subjIndices, subjIndicesAux,
      subjTexts, subjTextsAux, isMCQfam, qTypeLower, correctAnsOf, orByTruthiness, pylower,
      pstrip]
    norm_num [round2]
  have h := (C10_positional_matching simZero none embedAllNull reqW pW rW rfl hok).2.1 0
    (by decide)
  simpa using h

/-- C8 witness: the totals of the concrete one-MCQ run `reqW`. -/
theorem C8_totals_witness :
    evaluate_student simZero none embedAllNull reqW = .ok rW ∧
    rW.total_score = (rW.details.map Detail.score_awarded).sum ∧
    rW.total_marks = pW.total_marks.getD ((pW.questions.map Question.marks).sum) ∧
    rW.percentage = round2 (100 * rW.total_score / rW.total_marks) := by
  have hok : evaluate_student simZero none embedAllNull reqW = .ok rW := by
    simp +decide [evaluate_student, resolvePaper, reqW, pW, qW, rW, dW, buildRecord,
      scoreDetails, splitDetails, splitDetailsAux, scoreQuestion, mkDetail, mcqScore,
      buildAnswerMap, mapInsert, mapGet, pyToInt, qidxVal, subjIndices, subjIndicesAux,
      subjTexts, subjTextsAux, isMCQfam, qTypeLower, correctAnsOf, orByTruthiness, pylower,
      pstrip]
    norm_num [round2]
  have h := C8_totals simZero none embedAllNull reqW pW rW rfl hok
  exact ⟨hok, h.1, h.2.1, h.2.2.1 (by norm_num [rW])⟩
